import Mathlib

/-!
# Verification of the reflectpause_core metrics, accuracy and cache layers

A shallow embedding of `reflectpause_core/metrics/collector.py`,
`reflectpause_core/metrics/accuracy.py` and
`reflectpause_core/cache/toxicity_cache.py`.

Modelling conventions:
* Python `float` values (scores, durations, timestamps) are embedded as `ℚ`;
  the claims under study only compare, store and divide such values with
  explicit zero guards, so exact rational arithmetic is faithful to the
  branch structure of the code.
* Python `dict` objects are embedded as insertion-ordered association lists
  (Python 3.7+ dicts preserve insertion order; assignment to an existing key
  keeps its position, deletion removes it, `min` over a dict iterates keys in
  that order and keeps the first minimum).
* The SHA-256 hashing in `_generate_key` and `_hash_text` is modelled as the
  hashed string itself: two keys are equal exactly when the hashed strings
  are equal (hash collisions are outside the model).
* Wall-clock reads (`time.time()`, the hourly bucket key) are passed to each
  operation as an explicit argument.
-/

namespace ReflectPause

/-! ## `metrics/collector.py` — `ToxicityMetrics` -/

/-- Embedding of the `ToxicityMetrics` dataclass (collector.py lines 26-56). -/
structure ToxicityMetrics where
  total_checks : ℕ := 0
  toxic_detected : ℕ := 0
  non_toxic_detected : ℕ := 0
  cache_hits : ℕ := 0
  cache_misses : ℕ := 0
  engine_errors : ℕ := 0
deriving DecidableEq, Repr

namespace ToxicityMetrics

/-- `toxicity_rate` property: percentage of content detected as toxic. -/
def toxicity_rate (m : ToxicityMetrics) : ℚ :=
  if m.total_checks = 0 then 0
  else ((m.toxic_detected : ℚ) / (m.total_checks : ℚ)) * 100

/-- `cache_hit_rate` property: cache hit rate percentage.
The Python local `total_cache_attempts = cache_hits + cache_misses` is inlined. -/
def cache_hit_rate (m : ToxicityMetrics) : ℚ :=
  if m.cache_hits + m.cache_misses = 0 then 0
  else ((m.cache_hits : ℚ) / ((m.cache_hits + m.cache_misses : ℕ) : ℚ)) * 100

/-- `error_rate` property: error rate percentage. -/
def error_rate (m : ToxicityMetrics) : ℚ :=
  if m.total_checks = 0 then 0
  else ((m.engine_errors : ℚ) / (m.total_checks : ℚ)) * 100

end ToxicityMetrics

/-! ## Python `dict` as an insertion-ordered association list -/

/-- Python `k in d`. -/
def dictContains {α : Type} (l : List (String × α)) (k : String) : Bool :=
  l.any (fun e => e.1 == k)

/-- Python `d[k]` / `d.get(k)`. -/
def dictGet {α : Type} (l : List (String × α)) (k : String) : Option α :=
  (l.find? (fun e => e.1 == k)).map Prod.snd

/-- Python `d[k] = v`: replaces the value in place when the key is present
(keeping its position in iteration order), appends otherwise. -/
def dictSet {α : Type} (l : List (String × α)) (k : String) (v : α) :
    List (String × α) :=
  if dictContains l k then l.map (fun e => if e.1 == k then (k, v) else e)
  else l ++ [(k, v)]

/-- Python `del d[k]` (keys are unique, so removing the first match is the
whole deletion). -/
def dictDel {α : Type} (l : List (String × α)) (k : String) : List (String × α) :=
  l.eraseP (fun e => e.1 == k)

/-- Python `min(d)` over the keys of a non-empty dict: the least key (`""` as
a junk value on the empty dict, on which the code never calls it). -/
def minKey {α : Type} (l : List (String × α)) : String :=
  match l with
  | [] => ""
  | e :: es => es.foldl (fun b x => if x.1 < b then x.1 else b) e.1

/-! ## `metrics/collector.py` — `PerformanceMetrics`, hourly stats, collector -/

/-- Embedding of the `PerformanceMetrics` dataclass (collector.py lines
59-64): the three latency series. -/
structure PerformanceMetrics where
  response_times : List ℚ := []
  cached_response_times : List ℚ := []
  analyzed_response_times : List ℚ := []
deriving DecidableEq, Repr

/-- One bucket of `MetricsCollector._hourly_stats` (collector.py lines
306-313). -/
structure HourStats where
  total_checks : ℕ := 0
  toxic_detected : ℕ := 0
  avg_score : ℚ := 0
  avg_duration : ℚ := 0
  engine_breakdown : List (String × ℕ) := []
deriving DecidableEq, Repr

/-- `MetricsCollector._trim_samples` (collector.py lines 285-299).
Python's `l[excess:]` is `List.drop excess`, and
`l[max(0, len(l) - max_samples//2):]` is `List.drop` with truncated
subtraction; `if self...cached_response_times:` is list truthiness, i.e.
non-emptiness. -/
def trimSamples (max_samples : ℕ) (p : PerformanceMetrics) : PerformanceMetrics :=
  if p.response_times.length > max_samples then
    let excess := p.response_times.length - max_samples
    { response_times := p.response_times.drop excess
      cached_response_times :=
        if p.cached_response_times ≠ [] then
          p.cached_response_times.drop
            (p.cached_response_times.length - max_samples / 2)
        else p.cached_response_times
      analyzed_response_times :=
        if p.analyzed_response_times ≠ [] then
          p.analyzed_response_times.drop
            (p.analyzed_response_times.length - max_samples / 2)
        else p.analyzed_response_times }
  else p

/-- `MetricsCollector._update_hourly_stats` (collector.py lines 301-334).
The wall-clock hour string `datetime.now().strftime(...)` is the explicit
`hour_key` argument. (`threshold` is received and ignored, as in the
source.) -/
def updateHourlyStats (hour_key : String) (result : Bool)
    (score threshold : ℚ) (engine_type : String) (duration_ms : ℚ)
    (hs : List (String × HourStats)) : List (String × HourStats) :=
  let hs1 := if dictContains hs hour_key then hs else dictSet hs hour_key {}
  match dictGet hs1 hour_key with
  | none => hs1
  | some stats =>
    let total := stats.total_checks
    let eb := if dictContains stats.engine_breakdown engine_type then
        stats.engine_breakdown
      else dictSet stats.engine_breakdown engine_type 0
    let stats1 : HourStats :=
      { avg_score := (stats.avg_score * total + score) / (total + 1)
        avg_duration := (stats.avg_duration * total + duration_ms) / (total + 1)
        total_checks := stats.total_checks + 1
        toxic_detected :=
          if result then stats.toxic_detected + 1 else stats.toxic_detected
        engine_breakdown := dictSet eb engine_type ((dictGet eb engine_type).getD 0 + 1) }
    let hs2 := dictSet hs1 hour_key stats1
    if hs2.length > 24 then dictDel hs2 (minKey hs2) else hs2

/-- Embedding of the `MetricsCollector` state (collector.py lines 107-135);
the session timestamps are irrelevant to every claim and omitted. -/
structure MetricsCollector where
  max_samples : ℕ := 10000
  toxicity_metrics : ToxicityMetrics := {}
  performance_metrics : PerformanceMetrics := {}
  engine_stats : List (String × ToxicityMetrics) := []
  hourly_stats : List (String × HourStats) := []
deriving DecidableEq, Repr

/-- `MetricsCollector.record_toxicity_check` (collector.py lines 137-204).
`error: Optional[Exception]` is embedded as the Bool of Python's truthiness
test `if error:` (an exception instance is truthy, `None` falsy); the
wall-clock hour used by `_update_hourly_stats` is the explicit `hour_key`
argument; `text` is only logged by the source and is omitted. -/
def recordToxicityCheck (s : MetricsCollector) (hour_key : String) (result : Bool)
    (score threshold : ℚ) (engine_type : String) (duration_ms : ℚ)
    (was_cached error : Bool) : MetricsCollector :=
  let tm := s.toxicity_metrics
  let tm1 := { tm with total_checks := tm.total_checks + 1 }
  if error then
    { s with toxicity_metrics := { tm1 with engine_errors := tm1.engine_errors + 1 } }
  else
    let tm2 := if result then { tm1 with toxic_detected := tm1.toxic_detected + 1 }
      else { tm1 with non_toxic_detected := tm1.non_toxic_detected + 1 }
    let tm3 := if was_cached then { tm2 with cache_hits := tm2.cache_hits + 1 }
      else { tm2 with cache_misses := tm2.cache_misses + 1 }
    let p := s.performance_metrics
    let p1 := { p with response_times := p.response_times ++ [duration_ms] }
    let p2 := if was_cached then
        { p1 with cached_response_times := p1.cached_response_times ++ [duration_ms] }
      else
        { p1 with analyzed_response_times := p1.analyzed_response_times ++ [duration_ms] }
    let p3 := trimSamples s.max_samples p2
    let es := if dictContains s.engine_stats engine_type then s.engine_stats
      else dictSet s.engine_stats engine_type {}
    let em := (dictGet es engine_type).getD {}
    let em1 := { em with total_checks := em.total_checks + 1 }
    let em2 := if result then { em1 with toxic_detected := em1.toxic_detected + 1 }
      else { em1 with non_toxic_detected := em1.non_toxic_detected + 1 }
    { s with toxicity_metrics := tm3
             performance_metrics := p3
             engine_stats := dictSet es engine_type em2
             hourly_stats := updateHourlyStats hour_key result score threshold
               engine_type duration_ms s.hourly_stats }

/-- One `record_toxicity_check` call's arguments, for reasoning about call
sequences. -/
structure CheckEvent where
  hour_key : String
  result : Bool
  score : ℚ
  threshold : ℚ
  engine_type : String
  duration_ms : ℚ
  was_cached : Bool
  error : Bool
deriving DecidableEq, Repr

/-- Fold a sequence of `record_toxicity_check` calls over a collector. -/
def runChecks (s : MetricsCollector) (evs : List CheckEvent) : MetricsCollector :=
  evs.foldl (fun acc e => recordToxicityCheck acc e.hour_key e.result e.score
    e.threshold e.engine_type e.duration_ms e.was_cached e.error) s

/-- The length relations between the three latency series that
`record_toxicity_check` maintains: each sub-series is no longer than the
overall series, which is capped at `M` samples. -/
def PerfInv (M : ℕ) (p : PerformanceMetrics) : Prop :=
  p.cached_response_times.length ≤ p.response_times.length ∧
  p.analyzed_response_times.length ≤ p.response_times.length ∧
  p.response_times.length ≤ M

/-! ## `metrics/accuracy.py` — `AccuracyMetrics` -/

/-- Embedding of the `AccuracyMetrics` dataclass (accuracy.py lines 25-74). -/
structure AccuracyMetrics where
  true_positives : ℕ := 0
  true_negatives : ℕ := 0
  false_positives : ℕ := 0
  false_negatives : ℕ := 0
deriving DecidableEq, Repr

namespace AccuracyMetrics

/-- `total_predictions` property: total number of predictions made. -/
def total_predictions (m : AccuracyMetrics) : ℕ :=
  m.true_positives + m.true_negatives + m.false_positives + m.false_negatives

/-- `accuracy` property: overall accuracy percentage. -/
def accuracy (m : AccuracyMetrics) : ℚ :=
  if m.total_predictions = 0 then 0
  else (((m.true_positives + m.true_negatives : ℕ) : ℚ) / (m.total_predictions : ℚ)) * 100

/-- `precision` property: precision for toxic content detection.
The Python local `total_positive_predictions = true_positives + false_positives`
is inlined. -/
def precision (m : AccuracyMetrics) : ℚ :=
  if m.true_positives + m.false_positives = 0 then 0
  else ((m.true_positives : ℚ) / ((m.true_positives + m.false_positives : ℕ) : ℚ)) * 100

/-- `recall` property: recall for toxic content detection (the name is quoted
because `recall` is a Mathlib command). The Python local
`total_actual_positives = true_positives + false_negatives` is inlined. -/
def «recall» (m : AccuracyMetrics) : ℚ :=
  if m.true_positives + m.false_negatives = 0 then 0
  else ((m.true_positives : ℚ) / ((m.true_positives + m.false_negatives : ℕ) : ℚ)) * 100

/-- `f1_score` property. -/
def f1_score (m : AccuracyMetrics) : ℚ :=
  if m.precision = 0 ∧ m.«recall» = 0 then 0
  else 2 * (m.precision * m.«recall») / (m.precision + m.«recall»)

/-- `false_positive_rate` property. The Python local
`total_actual_negatives = true_negatives + false_positives` is inlined. -/
def false_positive_rate (m : AccuracyMetrics) : ℚ :=
  if m.true_negatives + m.false_positives = 0 then 0
  else ((m.false_positives : ℚ) / ((m.true_negatives + m.false_positives : ℕ) : ℚ)) * 100

end AccuracyMetrics

/-! ## `metrics/accuracy.py` — `AccuracyTracker` -/

/-- The `FeedbackType` enum (accuracy.py lines 17-22). -/
inductive FeedbackType where
  | correct_positive
  | correct_negative
  | false_positive
  | false_negative
deriving DecidableEq, Repr

/-- `AccuracyTracker._hash_text` (accuracy.py lines 362-364): SHA-256 is
modelled as the identity on the text — two hashes are equal exactly when the
texts are (collisions are outside the model). -/
def hashText (text : String) : String := text

/-- `AccuracyTracker._get_confidence_bucket` (accuracy.py lines 366-377).
The float literals `0.2 0.4 0.6 0.8` are the exact rationals; at the bucket
boundaries the score is compared against the same literal it was given as,
so the branch taken matches the Python float comparison. -/
def getConfidenceBucket (score : ℚ) : String :=
  if score < 0.2 then "0.0-0.2"
  else if score < 0.4 then "0.2-0.4"
  else if score < 0.6 then "0.4-0.6"
  else if score < 0.8 then "0.6-0.8"
  else "0.8-1.0"

/-- The arguments of one `record_feedback` call (accuracy.py lines 110-115). -/
structure FeedbackEvent where
  text : String
  predicted_toxic : Bool
  actual_toxic : Bool
  engine_type : String
  confidence_score : Option ℚ := none
deriving DecidableEq, Repr

/-- One entry of `_feedback_history` (accuracy.py lines 153-161); the
wall-clock `timestamp` field is irrelevant to every claim and omitted. -/
structure FeedbackRecord where
  text_hash : String
  predicted_toxic : Bool
  actual_toxic : Bool
  engine_type : String
  feedback_type : FeedbackType
  confidence_score : Option ℚ
deriving DecidableEq, Repr

/-- Embedding of the `AccuracyTracker` state (accuracy.py lines 85-108);
the storage file (persistence only) is omitted. -/
structure AccuracyTracker where
  engine_metrics : List (String × AccuracyMetrics) := []
  feedback_history : List FeedbackRecord := []
  ground_truth : List (String × Bool) := []
  confidence_buckets : List (String × List (ℚ × Bool)) := []
deriving DecidableEq, Repr

/-- `AccuracyTracker.record_feedback` (accuracy.py lines 110-180). -/
def recordFeedback (s : AccuracyTracker) (ev : FeedbackEvent) : AccuracyTracker :=
  let feedback_type :=
    if ev.predicted_toxic ∧ ev.actual_toxic then FeedbackType.correct_positive
    else if ¬ev.predicted_toxic ∧ ¬ev.actual_toxic then FeedbackType.correct_negative
    else if ev.predicted_toxic ∧ ¬ev.actual_toxic then FeedbackType.false_positive
    else FeedbackType.false_negative
  let em := if dictContains s.engine_metrics ev.engine_type then s.engine_metrics
    else dictSet s.engine_metrics ev.engine_type {}
  let m := (dictGet em ev.engine_type).getD {}
  let m1 :=
    match feedback_type with
    | FeedbackType.correct_positive => { m with true_positives := m.true_positives + 1 }
    | FeedbackType.correct_negative => { m with true_negatives := m.true_negatives + 1 }
    | FeedbackType.false_positive => { m with false_positives := m.false_positives + 1 }
    | FeedbackType.false_negative => { m with false_negatives := m.false_negatives + 1 }
  let record : FeedbackRecord :=
    { text_hash := hashText ev.text
      predicted_toxic := ev.predicted_toxic
      actual_toxic := ev.actual_toxic
      engine_type := ev.engine_type
      feedback_type := feedback_type
      confidence_score := ev.confidence_score }
  let cb :=
    match ev.confidence_score with
    | none => s.confidence_buckets
    | some c =>
      let bucket := getConfidenceBucket c
      let cb0 := if dictContains s.confidence_buckets bucket then s.confidence_buckets
        else dictSet s.confidence_buckets bucket []
      dictSet cb0 bucket ((dictGet cb0 bucket).getD [] ++ [(c, ev.actual_toxic)])
  { engine_metrics := dictSet em ev.engine_type m1
    feedback_history := s.feedback_history ++ [record]
    ground_truth := dictSet s.ground_truth (hashText ev.text) ev.actual_toxic
    confidence_buckets := cb }

/-- Fold a sequence of `record_feedback` calls over a tracker. -/
def runFeedback (s : AccuracyTracker) (evs : List FeedbackEvent) : AccuracyTracker :=
  evs.foldl recordFeedback s

/-- `AccuracyTracker.get_feedback_summary` (accuracy.py lines 255-266):
`self._feedback_history[-limit:] if self._feedback_history else []`.
Python's negative slice `h[-limit:]` is the last `min(limit, len(h))`
records when `limit ≥ 1`, but for `limit = 0` the expression `h[-0:]` is
`h[0:]` — the whole list. -/
def getFeedbackSummary (s : AccuracyTracker) (limit : ℕ) : List FeedbackRecord :=
  if s.feedback_history = [] then []
  else if limit = 0 then s.feedback_history
  else s.feedback_history.drop (s.feedback_history.length - limit)

/-- The loop body of `import_ground_truth` (accuracy.py lines 330-333): skip
a fingerprint already present, otherwise insert it (a dict assignment with an
absent key appends) and count it. -/
def importStep (acc : ℕ × List (String × Bool)) (kv : String × Bool) :
    ℕ × List (String × Bool) :=
  if dictContains acc.2 kv.1 then acc else (acc.1 + 1, acc.2 ++ [kv])

/-- `AccuracyTracker.import_ground_truth` (accuracy.py lines 318-336): the
imported dict is iterated in order; only fingerprints not already present
are inserted, and the insertions are counted. -/
def importGroundTruth (s : AccuracyTracker) (gt : List (String × Bool)) :
    ℕ × AccuracyTracker :=
  let r := gt.foldl importStep (0, s.ground_truth)
  (r.1, { s with ground_truth := r.2 })

/-- The metrics the tracker holds for `engine` (`AccuracyMetrics()` when the
engine was never seen, matching the default-insert in the source). -/
def engineMetricsOf (s : AccuracyTracker) (engine : String) : AccuracyMetrics :=
  (dictGet s.engine_metrics engine).getD {}

/-- `m1` extends `m` by bumping exactly one confusion-matrix counter by 1. -/
def incExactlyOne (m m1 : AccuracyMetrics) : Prop :=
  m1 = { m with true_positives := m.true_positives + 1 } ∨
  m1 = { m with true_negatives := m.true_negatives + 1 } ∨
  m1 = { m with false_positives := m.false_positives + 1 } ∨
  m1 = { m with false_negatives := m.false_negatives + 1 }

/-! ## `cache/toxicity_cache.py` — `ToxicityCache` -/

/-- One cache entry: the `CacheResult` dataclass (toxicity_cache.py lines
15-22) fused with its `_access_times[key]` slot. The two dicts of the source
always hold exactly the same keys in the same insertion order: entries are
added to both together (`put`, and the access-time refresh in `get`
reassigns an existing key, keeping its position), and deleted from both
together (`get` on expiry, `invalidate`, `cleanup_expired`, `_evict_lru`). -/
structure CacheResult where
  text_hash : String
  toxicity_score : ℚ
  timestamp : ℚ
  engine_type : String
  hit_count : ℕ := 0
  last_access : ℚ
deriving DecidableEq, Repr

/-- The `ToxicityCache` state (toxicity_cache.py lines 33-51). -/
structure ToxicityCache where
  max_size : ℕ := 1000
  ttl_seconds : ℚ := 3600
  entries : List CacheResult := []
  hits : ℕ := 0
  misses : ℕ := 0
  evictions : ℕ := 0
  expired : ℕ := 0
deriving DecidableEq, Repr

/-- `ToxicityCache._generate_key` (toxicity_cache.py lines 204-208): the
SHA-256 hex digest of `f"{engine_type}:{text}"` is modelled as the combined
string itself — two keys are equal exactly when the combined strings are.
The source's argument order is `_generate_key(text, engine_type)`. -/
def generateKey (text engine_type : String) : String :=
  engine_type ++ ":" ++ text

/-- `ToxicityCache._is_expired` (toxicity_cache.py lines 210-212), with the
wall clock passed as `now`. -/
def isExpired (now : ℚ) (c : ToxicityCache) (r : CacheResult) : Bool :=
  decide (now - r.timestamp > c.ttl_seconds)

/-- The least-recently-used entry:
`min(self._access_times, key=self._access_times.get)` iterates keys in
insertion order and keeps the first strict minimum. -/
def lruEntry : List CacheResult → Option CacheResult
  | [] => none
  | e :: es =>
    some (es.foldl (fun b x => if x.last_access < b.last_access then x else b) e)

/-- `ToxicityCache._evict_lru` (toxicity_cache.py lines 214-227): on a
non-empty cache, remove the least-recently-used entry and count the
eviction. -/
def evictLRU (c : ToxicityCache) : ToxicityCache :=
  match lruEntry c.entries with
  | none => c
  | some e =>
    { c with entries := c.entries.eraseP (fun x => x.text_hash == e.text_hash)
             evictions := c.evictions + 1 }

/-- `ToxicityCache.get` (toxicity_cache.py lines 53-87), with the wall clock
passed as `now`: returns the Python return value together with the updated
cache. -/
def cacheGet (c : ToxicityCache) (now : ℚ) (text engine_type : String) :
    Option ℚ × ToxicityCache :=
  let cache_key := generateKey text engine_type
  match c.entries.find? (fun e => e.text_hash == cache_key) with
  | none => (none, { c with misses := c.misses + 1 })
  | some result =>
    if isExpired now c result then
      (none, { c with
        entries := c.entries.eraseP (fun e => e.text_hash == cache_key)
        expired := c.expired + 1
        misses := c.misses + 1 })
    else
      (some result.toxicity_score,
        { c with
          entries := c.entries.map (fun e =>
            if e.text_hash == cache_key then
              { e with hit_count := e.hit_count + 1, last_access := now }
            else e)
          hits := c.hits + 1 })

/-- `ToxicityCache.put` (toxicity_cache.py lines 89-115), with the wall clock
passed as `now`: evict when full and the key is new, then store a fresh
`CacheResult` (a dict assignment: in-place replacement when the key exists,
append otherwise). -/
def cachePut (c : ToxicityCache) (now : ℚ) (text engine_type : String)
    (toxicity_score : ℚ) : ToxicityCache :=
  let cache_key := generateKey text engine_type
  let c1 := if c.entries.length ≥ c.max_size ∧
      ¬ (c.entries.any (fun e => e.text_hash == cache_key)) then evictLRU c else c
  let entry : CacheResult :=
    { text_hash := cache_key
      toxicity_score := toxicity_score
      timestamp := now
      engine_type := engine_type
      hit_count := 0
      last_access := now }
  { c1 with entries :=
      if c1.entries.any (fun e => e.text_hash == cache_key) then
        c1.entries.map (fun e => if e.text_hash == cache_key then entry else e)
      else c1.entries ++ [entry] }

/-- The `text is not None` branch of `ToxicityCache.invalidate`
(toxicity_cache.py lines 128-135): the key is built with
`engine_type or ''`, so a missing engine type becomes the empty string;
the matching entry, if any, is removed and counted. -/
def invalidateText (c : ToxicityCache) (text : String)
    (engine_type : Option String) : ℕ × ToxicityCache :=
  let cache_key := generateKey text (engine_type.getD "")
  if c.entries.any (fun e => e.text_hash == cache_key) then
    (1, { c with entries := c.entries.eraseP (fun e => e.text_hash == cache_key) })
  else (0, c)

/-- One `put` call's arguments, for reasoning about sequences of inserts. -/
structure PutEvent where
  now : ℚ
  text : String
  engine_type : String
  toxicity_score : ℚ
deriving DecidableEq, Repr

/-- The key a `put` call stores under. -/
def PutEvent.key (p : PutEvent) : String := generateKey p.text p.engine_type

/-- The entry a `put` call stores when its key is fresh. -/
def PutEvent.entry (p : PutEvent) : CacheResult :=
  { text_hash := p.key
    toxicity_score := p.toxicity_score
    timestamp := p.now
    engine_type := p.engine_type
    hit_count := 0
    last_access := p.now }

/-- Fold a sequence of `put` calls over a cache. -/
def runPuts (c : ToxicityCache) (ps : List PutEvent) : ToxicityCache :=
  ps.foldl (fun acc p => cachePut acc p.now p.text p.engine_type p.toxicity_score) c

/-! # Theorems -/

/-! ## Association-list (Python dict) lemmas -/

lemma find?_key_of_not_contains {α : Type} (l : List (String × α)) (k : String)
    (h : dictContains l k = false) : l.find? (fun e => e.1 == k) = none := by
  unfold dictContains at h
  rw [List.find?_eq_none]
  exact List.any_eq_false.mp h

lemma dictGet_of_not_contains {α : Type} (l : List (String × α)) (k : String)
    (h : dictContains l k = false) : dictGet l k = none := by
  unfold dictGet
  rw [find?_key_of_not_contains l k h]
  rfl

lemma find?_map_keyfix {α : Type} (k q : String) (v : α) :
    ∀ l : List (String × α),
      List.find? (fun e => e.1 == q) (l.map (fun e => if e.1 == k then (k, v) else e))
        = Option.map (fun e => if e.1 == k then (k, v) else e)
            (List.find? (fun e => e.1 == q) l)
  | [] => rfl
  | e :: es => by
    have hkey : ((if e.1 == k then (k, v) else e) : String × α).1 = e.1 := by
      by_cases hk : e.1 == k
      · simp only [hk, if_true]
        exact (eq_of_beq hk).symm
      · simp [hk]
    by_cases hq : e.1 == q
    · rw [List.map_cons,
        List.find?_cons_of_pos (p := fun (x : String × α) => x.1 == q) _
          (show ((if e.1 == k then (k, v) else e) : String × α).1 == q by
            rw [hkey]; exact hq),
        List.find?_cons_of_pos (p := fun (x : String × α) => x.1 == q) _ hq]
      rfl
    · rw [List.map_cons,
        List.find?_cons_of_neg (p := fun (x : String × α) => x.1 == q) _
          (show ¬ (((if e.1 == k then (k, v) else e) : String × α).1 == q) = true by
            rw [hkey]; exact hq),
        List.find?_cons_of_neg (p := fun (x : String × α) => x.1 == q) _ hq]
      exact find?_map_keyfix k q v es

lemma dictGet_dictSet_self {α : Type} (l : List (String × α)) (k : String) (v : α) :
    dictGet (dictSet l k v) k = some v := by
  unfold dictSet
  split
  · rename_i h
    unfold dictGet
    rw [find?_map_keyfix]
    obtain ⟨e, he, hek⟩ := List.any_eq_true.mp h
    obtain ⟨w, hw⟩ := Option.isSome_iff_exists.mp
      ((List.find?_isSome (p := fun (x : String × α) => x.1 == k)).mpr ⟨e, he, hek⟩)
    rw [hw]
    have hwk := List.find?_some hw
    simp only at hwk
    simp [hwk]
    rw [if_pos (eq_of_beq hwk)]
  · rename_i h
    unfold dictGet
    rw [List.find?_append, find?_key_of_not_contains l k (by simpa using h)]
    simp [List.find?]

lemma dictGet_dictSet_ne {α : Type} (l : List (String × α)) (k q : String) (v : α)
    (h : q ≠ k) : dictGet (dictSet l k v) q = dictGet l q := by
  unfold dictSet
  split
  · unfold dictGet
    rw [find?_map_keyfix]
    cases hf : List.find? (fun e => e.1 == q) l with
    | none => rfl
    | some w =>
      have hwq : w.1 = q := by
        have := List.find?_some hf
        simp only at this
        exact eq_of_beq this
      have hwk : (w.1 == k) = false := by
        rw [hwq]
        exact beq_eq_false_iff_ne.mpr h
      simp [hwk]
      rw [if_neg (beq_eq_false_iff_ne.mp hwk)]
  · unfold dictGet
    rw [List.find?_append]
    have h1 : ([(k, v)].find? (fun (x : String × α) => x.1 == q)) = none := by
      rw [List.find?_cons_of_neg (p := fun (x : String × α) => x.1 == q)]
      · rfl
      · show ¬ ((k == q) = true)
        rw [beq_eq_false_iff_ne.mpr (fun hk => h hk.symm)]
        exact Bool.false_ne_true
    simp [h1]

/-! ## C6 machinery: the latency-series invariant -/

lemma trimSamples_perfInv (M : ℕ) (p : PerformanceMetrics)
    (hc : p.cached_response_times.length ≤ p.response_times.length)
    (ha : p.analyzed_response_times.length ≤ p.response_times.length) :
    PerfInv M (trimSamples M p) := by
  unfold PerfInv trimSamples
  by_cases h : p.response_times.length > M
  · simp only [if_pos h]
    refine ⟨?_, ?_, ?_⟩
    · by_cases hc0 : p.cached_response_times = []
      · simp [hc0]
      · simp only [hc0, ne_eq, not_false_eq_true, if_true, List.length_drop]
        omega
    · by_cases ha0 : p.analyzed_response_times = []
      · simp [ha0]
      · simp only [ha0, ne_eq, not_false_eq_true, if_true, List.length_drop]
        omega
    · simp only [List.length_drop]
      omega
  · simp only [if_neg h]
    exact ⟨hc, ha, by omega⟩

lemma recordToxicityCheck_perfInv (s : MetricsCollector) (hour_key : String)
    (result : Bool) (score threshold : ℚ) (engine_type : String)
    (duration_ms : ℚ) (was_cached error : Bool)
    (h : PerfInv s.max_samples s.performance_metrics) :
    PerfInv (recordToxicityCheck s hour_key result score threshold engine_type
        duration_ms was_cached error).max_samples
      (recordToxicityCheck s hour_key result score threshold engine_type
        duration_ms was_cached error).performance_metrics := by
  obtain ⟨hc, ha, hr⟩ := h
  cases error
  · cases was_cached <;>
    · simp only [recordToxicityCheck, if_neg Bool.false_ne_true, if_pos,
        Bool.false_eq_true, if_false, if_true, cond_true, cond_false]
      apply trimSamples_perfInv <;> simp [List.length_append] <;> omega
  · simpa [recordToxicityCheck] using ⟨hc, ha, hr⟩

lemma runChecks_perfInv (evs : List CheckEvent) (s : MetricsCollector)
    (h : PerfInv s.max_samples s.performance_metrics) :
    PerfInv (runChecks s evs).max_samples (runChecks s evs).performance_metrics := by
  induction evs generalizing s with
  | nil => exact h
  | cons e es ih =>
    exact ih _ (recordToxicityCheck_perfInv s e.hour_key e.result e.score
      e.threshold e.engine_type e.duration_ms e.was_cached e.error h)

lemma runChecks_max_samples (evs : List CheckEvent) (s : MetricsCollector) :
    (runChecks s evs).max_samples = s.max_samples := by
  induction evs generalizing s with
  | nil => rfl
  | cons e es ih =>
    simp only [runChecks, List.foldl_cons] at ih ⊢
    rw [ih]
    cases h : e.error <;> simp [recordToxicityCheck, h]

/-- C5: every `record_toxicity_check` call increments `total_checks` by
exactly one; and a call with `error` set additionally increments
`engine_errors` by exactly one and changes nothing else — the resulting
collector is the input collector with only those two counters bumped
(so `toxic_detected`, `non_toxic_detected`, `cache_hits`, `cache_misses`,
all three latency series, the per-engine stats and the hourly buckets are
untouched on the error path). -/
theorem record_toxicity_check_error_isolation :
    (∀ (s : MetricsCollector) (hour_key : String) (result : Bool)
      (score threshold : ℚ) (engine_type : String) (duration_ms : ℚ)
      (was_cached error : Bool),
      (recordToxicityCheck s hour_key result score threshold engine_type
        duration_ms was_cached error).toxicity_metrics.total_checks
        = s.toxicity_metrics.total_checks + 1) ∧
    (∀ (s : MetricsCollector) (hour_key : String) (result : Bool)
      (score threshold : ℚ) (engine_type : String) (duration_ms : ℚ)
      (was_cached : Bool),
      recordToxicityCheck s hour_key result score threshold engine_type
        duration_ms was_cached true
        = { s with toxicity_metrics := { s.toxicity_metrics with
              total_checks := s.toxicity_metrics.total_checks + 1
              engine_errors := s.toxicity_metrics.engine_errors + 1 } }) := by
  constructor
  · intro s hour_key result score threshold engine_type duration_ms was_cached error
    cases error <;> cases result <;> cases was_cached <;>
      simp [recordToxicityCheck]
  · intro s hour_key result score threshold engine_type duration_ms was_cached
    rfl

/-- C6: after any sequence of `record_toxicity_check` calls on a fresh
collector with `max_samples = M`, each of the three latency series (overall,
cache-hit-only, cache-miss-only) holds at most `M` samples; and `_trim_samples`
is a FIFO trim — each trimmed series is a suffix of the series it came from,
i.e. only the oldest samples are ever dropped. -/
theorem latency_series_bounded_and_fifo :
    (∀ (M : ℕ) (evs : List CheckEvent),
      (runChecks { max_samples := M } evs).performance_metrics.response_times.length ≤ M ∧
      (runChecks { max_samples := M } evs).performance_metrics.cached_response_times.length
        ≤ M ∧
      (runChecks { max_samples := M } evs).performance_metrics.analyzed_response_times.length
        ≤ M) ∧
    (∀ (M : ℕ) (p : PerformanceMetrics),
      (trimSamples M p).response_times <:+ p.response_times ∧
      (trimSamples M p).cached_response_times <:+ p.cached_response_times ∧
      (trimSamples M p).analyzed_response_times <:+ p.analyzed_response_times) := by
  constructor
  · intro M evs
    have h0 : PerfInv ({ max_samples := M } : MetricsCollector).max_samples
        ({ max_samples := M } : MetricsCollector).performance_metrics := by
      refine ⟨le_refl 0, le_refl 0, Nat.zero_le M⟩
    have h := runChecks_perfInv evs { max_samples := M } h0
    rw [runChecks_max_samples] at h
    obtain ⟨hc, ha, hr⟩ := h
    exact ⟨hr, le_trans hc hr, le_trans ha hr⟩
  · intro M p
    unfold trimSamples
    by_cases h : p.response_times.length > M
    · simp only [if_pos h]
      refine ⟨List.drop_suffix _ _, ?_, ?_⟩
      · dsimp only
        split
        · exact List.drop_suffix _ _
        · exact List.suffix_refl _
      · dsimp only
        split
        · exact List.drop_suffix _ _
        · exact List.suffix_refl _
    · simp only [if_neg h]
      exact ⟨List.suffix_refl _, List.suffix_refl _, List.suffix_refl _⟩

/-! ## C4 machinery: per-engine confusion matrices -/

lemma recordFeedback_engine_metrics_self (s : AccuracyTracker) (ev : FeedbackEvent) :
    engineMetricsOf (recordFeedback s ev) ev.engine_type =
      (fun m =>
        if ev.predicted_toxic ∧ ev.actual_toxic then
          { m with true_positives := m.true_positives + 1 }
        else if ¬ev.predicted_toxic ∧ ¬ev.actual_toxic then
          { m with true_negatives := m.true_negatives + 1 }
        else if ev.predicted_toxic ∧ ¬ev.actual_toxic then
          { m with false_positives := m.false_positives + 1 }
        else { m with false_negatives := m.false_negatives + 1 })
      (engineMetricsOf s ev.engine_type) := by
  unfold recordFeedback engineMetricsOf
  by_cases hc : dictContains s.engine_metrics ev.engine_type
  · simp only [hc, if_true, dictGet_dictSet_self, Option.getD_some]
    cases hp : ev.predicted_toxic <;> cases ha : ev.actual_toxic <;> simp
  · simp only [hc, Bool.false_eq_true, if_false, dictGet_dictSet_self, Option.getD_some,
      dictGet_of_not_contains s.engine_metrics ev.engine_type (by simpa using hc),
      Option.getD_none]
    cases hp : ev.predicted_toxic <;> cases ha : ev.actual_toxic <;> simp

lemma recordFeedback_engine_metrics_ne (s : AccuracyTracker) (ev : FeedbackEvent)
    (e : String) (h : e ≠ ev.engine_type) :
    engineMetricsOf (recordFeedback s ev) e = engineMetricsOf s e := by
  unfold recordFeedback engineMetricsOf
  by_cases hc : dictContains s.engine_metrics ev.engine_type
  · simp only [hc, if_true, dictGet_dictSet_ne _ _ _ _ h]
  · simp only [hc, Bool.false_eq_true, if_false, dictGet_dictSet_ne _ _ _ _ h]

lemma recordFeedback_total_self (s : AccuracyTracker) (ev : FeedbackEvent) :
    (engineMetricsOf (recordFeedback s ev) ev.engine_type).total_predictions
      = (engineMetricsOf s ev.engine_type).total_predictions + 1 := by
  rw [recordFeedback_engine_metrics_self]
  cases hp : ev.predicted_toxic <;> cases ha : ev.actual_toxic <;>
    simp [AccuracyMetrics.total_predictions, hp, ha] <;> omega

lemma runFeedback_total (evs : List FeedbackEvent) :
    ∀ (s : AccuracyTracker) (engine : String),
    (engineMetricsOf (runFeedback s evs) engine).total_predictions
      = (engineMetricsOf s engine).total_predictions
        + (evs.filter (fun ev => ev.engine_type == engine)).length := by
  induction evs with
  | nil => intro s engine; simp [runFeedback]
  | cons ev es ih =>
    intro s engine
    simp only [runFeedback, List.foldl_cons, List.filter_cons] at ih ⊢
    by_cases he : (ev.engine_type == engine) = true
    · have heq : ev.engine_type = engine := eq_of_beq he
      rw [ih (recordFeedback s ev) engine, he]
      subst heq
      rw [recordFeedback_total_self]
      simp
      omega
    · have hne : engine ≠ ev.engine_type := fun hc =>
        he (by rw [hc]; exact beq_self_eq_true _)
      rw [ih (recordFeedback s ev) engine,
        recordFeedback_engine_metrics_ne s ev engine hne]
      simp [he]

/-- C4: confusion-matrix completeness of `record_feedback`. After any
sequence of `record_feedback` calls on a fresh tracker, for every engine
`truePositives + trueNegatives + falsePositives + falseNegatives`
(`total_predictions`) equals the number of calls recorded for that engine;
and each single call bumps exactly one of the four counters of its engine
by exactly 1, leaving every other engine's metrics unchanged. -/
theorem record_feedback_confusion_matrix_complete :
    (∀ (evs : List FeedbackEvent) (engine : String),
      (engineMetricsOf (runFeedback {} evs) engine).total_predictions
        = (evs.filter (fun ev => ev.engine_type == engine)).length) ∧
    (∀ (s : AccuracyTracker) (ev : FeedbackEvent),
      incExactlyOne (engineMetricsOf s ev.engine_type)
        (engineMetricsOf (recordFeedback s ev) ev.engine_type) ∧
      ∀ engine : String, engine ≠ ev.engine_type →
        engineMetricsOf (recordFeedback s ev) engine = engineMetricsOf s engine) := by
  refine ⟨?_, ?_⟩
  · intro evs engine
    rw [runFeedback_total evs {} engine]
    simp [engineMetricsOf, dictGet, AccuracyMetrics.total_predictions]
  · intro s ev
    refine ⟨?_, fun engine hne => recordFeedback_engine_metrics_ne s ev engine hne⟩
    rw [incExactlyOne, recordFeedback_engine_metrics_self]
    cases hp : ev.predicted_toxic <;> cases ha : ev.actual_toxic <;>
      simp [hp, ha]

/-- C4 witness: one `record_feedback` call for engine `"onnx"` on a fresh
tracker, evaluated concretely. -/
theorem record_feedback_confusion_matrix_complete_witness :
    (engineMetricsOf (runFeedback {} [⟨"hi", true, true, "onnx", none⟩]) "onnx").total_predictions
      = ([(⟨"hi", true, true, "onnx", none⟩ : FeedbackEvent)].filter
          (fun ev => ev.engine_type == "onnx")).length ∧
    incExactlyOne (engineMetricsOf {} "onnx")
      (engineMetricsOf (recordFeedback {} ⟨"hi", true, true, "onnx", none⟩) "onnx") ∧
    engineMetricsOf (recordFeedback {} ⟨"hi", true, true, "onnx", none⟩) "perspective"
      = engineMetricsOf {} "perspective" :=
  ⟨record_feedback_confusion_matrix_complete.1 [⟨"hi", true, true, "onnx", none⟩] "onnx",
   (record_feedback_confusion_matrix_complete.2 {} ⟨"hi", true, true, "onnx", none⟩).1,
   (record_feedback_confusion_matrix_complete.2 {} ⟨"hi", true, true, "onnx", none⟩).2
     "perspective" (by decide)⟩

/-! ## C1: zero-division safety of the derived ratios -/

lemma precision_nonneg (m : AccuracyMetrics) : 0 ≤ m.precision := by
  unfold AccuracyMetrics.precision
  split
  · exact le_refl 0
  · positivity

lemma recall_nonneg (m : AccuracyMetrics) : 0 ≤ m.«recall» := by
  unfold AccuracyMetrics.«recall»
  split
  · exact le_refl 0
  · positivity

/-- C1: every derived ratio of the Metrics Collector and the Accuracy Tracker
(`toxicity_rate`, `cache_hit_rate`, `error_rate`, `precision`, `recall`,
`f1_score`, `false_positive_rate`) returns exactly `0` when its denominator is
`0`; and the one division whose guard is not literally a test of its own
denominator — `f1_score` — only ever divides by `precision + recall ≠ 0`, so
(in this exact-rational embedding of the float arithmetic) no derived metric
is ever undefined or infinite. -/
theorem metrics_zero_division_safety :
    (∀ m : ToxicityMetrics, m.total_checks = 0 → m.toxicity_rate = 0) ∧
    (∀ m : ToxicityMetrics, m.cache_hits + m.cache_misses = 0 → m.cache_hit_rate = 0) ∧
    (∀ m : ToxicityMetrics, m.total_checks = 0 → m.error_rate = 0) ∧
    (∀ a : AccuracyMetrics, a.true_positives + a.false_positives = 0 → a.precision = 0) ∧
    (∀ a : AccuracyMetrics, a.true_positives + a.false_negatives = 0 → a.«recall» = 0) ∧
    (∀ a : AccuracyMetrics, a.precision = 0 ∧ a.«recall» = 0 → a.f1_score = 0) ∧
    (∀ a : AccuracyMetrics, a.true_negatives + a.false_positives = 0 →
      a.false_positive_rate = 0) ∧
    (∀ a : AccuracyMetrics, ¬(a.precision = 0 ∧ a.«recall» = 0) →
      a.precision + a.«recall» ≠ 0) := by
  refine ⟨?_, ?_, ?_, ?_, ?_, ?_, ?_, ?_⟩
  · intro m h; simp [ToxicityMetrics.toxicity_rate, h]
  · intro m h; simp [ToxicityMetrics.cache_hit_rate, h]
  · intro m h; simp [ToxicityMetrics.error_rate, h]
  · intro a h; simp [AccuracyMetrics.precision, h]
  · intro a h; simp [AccuracyMetrics.«recall», h]
  · intro a h; simp [AccuracyMetrics.f1_score, h]
  · intro a h; simp [AccuracyMetrics.false_positive_rate, h]
  · intro a h hsum
    rcases (not_and_or.mp h) with hp | hr
    · exact hp (le_antisymm (by nlinarith [precision_nonneg a, recall_nonneg a])
        (precision_nonneg a))
    · exact hr (le_antisymm (by nlinarith [precision_nonneg a, recall_nonneg a])
        (recall_nonneg a))

/-- C1 witness: the zero-denominator cases evaluated on the all-zero metric
records, and the `f1_score` denominator evaluated on a record with one true
positive. -/
theorem metrics_zero_division_safety_witness :
    ToxicityMetrics.toxicity_rate {} = 0 ∧
    ToxicityMetrics.cache_hit_rate {} = 0 ∧
    ToxicityMetrics.error_rate {} = 0 ∧
    AccuracyMetrics.precision {} = 0 ∧
    AccuracyMetrics.«recall» {} = 0 ∧
    AccuracyMetrics.f1_score {} = 0 ∧
    AccuracyMetrics.false_positive_rate {} = 0 ∧
    AccuracyMetrics.precision ⟨1, 0, 0, 0⟩ + AccuracyMetrics.«recall» ⟨1, 0, 0, 0⟩ ≠ 0 :=
  ⟨metrics_zero_division_safety.1 {} rfl,
   metrics_zero_division_safety.2.1 {} rfl,
   metrics_zero_division_safety.2.2.1 {} rfl,
   metrics_zero_division_safety.2.2.2.1 {} rfl,
   metrics_zero_division_safety.2.2.2.2.1 {} rfl,
   metrics_zero_division_safety.2.2.2.2.2.1 {} (by decide),
   metrics_zero_division_safety.2.2.2.2.2.2.1 {} rfl,
   metrics_zero_division_safety.2.2.2.2.2.2.2 ⟨1, 0, 0, 0⟩
     (by simp [AccuracyMetrics.precision, AccuracyMetrics.«recall»])⟩

/-! ## C7: confidence bucket boundaries -/

/-- C7: `_get_confidence_bucket` realises the five half-open ranges of width
0.2 (top bucket closed): any score in `[0.2, 0.4)` — in particular exactly
`0.2` — lands in bucket `"0.2-0.4"` and not in `"0.0-0.2"`, any score
`≥ 0.8` — in particular `1.0` — lands in the top bucket `"0.8-1.0"`, and the
other three ranges map to their buckets likewise. -/
theorem confidence_bucket_boundaries :
    (∀ q : ℚ, q < 0.2 → getConfidenceBucket q = "0.0-0.2") ∧
    (∀ q : ℚ, 0.2 ≤ q → q < 0.4 → getConfidenceBucket q = "0.2-0.4") ∧
    (∀ q : ℚ, 0.4 ≤ q → q < 0.6 → getConfidenceBucket q = "0.4-0.6") ∧
    (∀ q : ℚ, 0.6 ≤ q → q < 0.8 → getConfidenceBucket q = "0.6-0.8") ∧
    (∀ q : ℚ, 0.8 ≤ q → getConfidenceBucket q = "0.8-1.0") ∧
    getConfidenceBucket 0.2 = "0.2-0.4" ∧
    getConfidenceBucket 0.2 ≠ "0.0-0.2" ∧
    getConfidenceBucket 1 = "0.8-1.0" := by
  have hb : getConfidenceBucket 0.2 = "0.2-0.4" := by
    norm_num [getConfidenceBucket]
  refine ⟨?_, ?_, ?_, ?_, ?_, hb, ?_, ?_⟩
  · intro q h
    simp [getConfidenceBucket, h]
  · intro q h1 h2
    simp [getConfidenceBucket, not_lt.mpr h1, h2]
  · intro q h1 h2
    have : ¬ q < 0.2 := by intro hq; norm_num at h1 hq; linarith
    simp [getConfidenceBucket, this, not_lt.mpr h1, h2]
  · intro q h1 h2
    have ha : ¬ q < 0.2 := by intro hq; norm_num at h1 hq; linarith
    have hc : ¬ q < 0.4 := by intro hq; norm_num at h1 hq; linarith
    simp [getConfidenceBucket, ha, hc, not_lt.mpr h1, h2]
  · intro q h1
    have ha : ¬ q < 0.2 := by intro hq; norm_num at h1 hq; linarith
    have hc : ¬ q < 0.4 := by intro hq; norm_num at h1 hq; linarith
    have hd : ¬ q < 0.6 := by intro hq; norm_num at h1 hq; linarith
    simp [getConfidenceBucket, ha, hc, hd, not_lt.mpr h1]
  · rw [hb]; decide
  · norm_num [getConfidenceBucket]

/-- C7 witness: the two boundary scores of the claim, `0.2` and `1.0`,
evaluated through the bucket characterisation. -/
theorem confidence_bucket_boundaries_witness :
    getConfidenceBucket 0.2 = "0.2-0.4" ∧ getConfidenceBucket 1 = "0.8-1.0" :=
  ⟨confidence_bucket_boundaries.2.1 0.2 (le_refl _) (by norm_num),
   confidence_bucket_boundaries.2.2.2.2.1 1 (by norm_num)⟩

/-! ## C8: `get_feedback_summary` and the `limit = 0` slice bug -/

/-- C8: for `limit ≥ 1`, `get_feedback_summary` returns the most recent
`min(limit, len(history))` records in insertion order (a suffix of the
history of exactly that length) — but for `limit = 0` the Python slice
`history[-0:]` is `history[0:]`, so the code returns the ENTIRE history
instead of the no records the claim (and the method's own docstring,
"maximum number of feedback records to return") demands; on a tracker with
one recorded feedback, `get_feedback_summary(0)` returns 1 record. -/
theorem get_feedback_summary_limit_zero_bug :
    (∀ (s : AccuracyTracker) (limit : ℕ), 1 ≤ limit →
      getFeedbackSummary s limit <:+ s.feedback_history ∧
      (getFeedbackSummary s limit).length = min limit s.feedback_history.length) ∧
    (∀ s : AccuracyTracker, s.feedback_history ≠ [] →
      getFeedbackSummary s 0 = s.feedback_history) ∧
    (getFeedbackSummary (recordFeedback {} ⟨"hi", true, true, "onnx", none⟩) 0).length
      = 1 := by
  refine ⟨?_, ?_, ?_⟩
  · intro s limit h
    unfold getFeedbackSummary
    by_cases h0 : s.feedback_history = []
    · simp [h0]
    · rw [if_neg h0, if_neg (by omega : ¬ limit = 0)]
      refine ⟨List.drop_suffix _ _, ?_⟩
      rw [List.length_drop]
      have hlen : s.feedback_history.length ≠ 0 := fun hz =>
        h0 (List.length_eq_zero.mp hz)
      omega
  · intro s h0
    unfold getFeedbackSummary
    rw [if_neg h0]
    rfl
  · rfl

/-- C8 witness: the `limit ≥ 1` part applied to a tracker holding one
feedback record with `limit = 1`, and the `limit = 0` divergence applied to
the same tracker. -/
theorem get_feedback_summary_limit_zero_bug_witness :
    ((getFeedbackSummary (recordFeedback {} ⟨"hi", true, true, "onnx", none⟩) 1 <:+
        (recordFeedback {} ⟨"hi", true, true, "onnx", none⟩).feedback_history) ∧
      (getFeedbackSummary (recordFeedback {} ⟨"hi", true, true, "onnx", none⟩) 1).length
        = min 1 (recordFeedback {} ⟨"hi", true, true, "onnx",
            none⟩).feedback_history.length) ∧
    getFeedbackSummary (recordFeedback {} ⟨"hi", true, true, "onnx", none⟩) 0
      = (recordFeedback {} ⟨"hi", true, true, "onnx", none⟩).feedback_history :=
  ⟨get_feedback_summary_limit_zero_bug.1
      (recordFeedback {} ⟨"hi", true, true, "onnx", none⟩) 1 (le_refl 1),
   get_feedback_summary_limit_zero_bug.2.1
      (recordFeedback {} ⟨"hi", true, true, "onnx", none⟩) (by decide)⟩

/-! ## C9: `import_ground_truth` machinery -/

lemma dictContains_append_left {α : Type} (t u : List (String × α)) (k : String)
    (h : dictContains t k = true) : dictContains (t ++ u) k = true := by
  unfold dictContains at h ⊢
  rw [List.any_append, h]
  rfl

lemma dictGet_append_of_contains {α : Type} (t u : List (String × α)) (k : String)
    (h : dictContains t k = true) : dictGet (t ++ u) k = dictGet t k := by
  unfold dictGet
  rw [List.find?_append]
  obtain ⟨e, he, hek⟩ := List.any_eq_true.mp h
  obtain ⟨w, hw⟩ := Option.isSome_iff_exists.mp
    ((List.find?_isSome (p := fun (x : String × α) => x.1 == k)).mpr ⟨e, he, hek⟩)
  rw [hw]
  rfl

lemma importFold_table_extends (gt : List (String × Bool)) :
    ∀ (n : ℕ) (t : List (String × Bool)),
      ∃ u, (gt.foldl importStep (n, t)).2 = t ++ u := by
  induction gt with
  | nil => exact fun n t => ⟨[], (List.append_nil t).symm⟩
  | cons kv gs ih =>
    intro n t
    rw [List.foldl_cons]
    by_cases hc : dictContains t kv.1
    · rw [show importStep (n, t) kv = (n, t) by unfold importStep; simp [hc]]
      exact ih n t
    · rw [show importStep (n, t) kv = (n + 1, t ++ [kv]) by
        unfold importStep; simp [hc]]
      obtain ⟨u, hu⟩ := ih (n + 1) (t ++ [kv])
      exact ⟨[kv] ++ u, by rw [hu, List.append_assoc]⟩

lemma importFold_count (gt : List (String × Bool)) :
    ∀ (n : ℕ) (t : List (String × Bool)), (gt.map Prod.fst).Nodup →
      (gt.foldl importStep (n, t)).1
        = n + (gt.filter (fun kv => ! dictContains t kv.1)).length := by
  induction gt with
  | nil => intro n t _; simp
  | cons kv gs ih =>
    intro n t hnd
    obtain ⟨hmem, hnd2⟩ := List.nodup_cons.mp
      (by rw [List.map_cons] at hnd; exact hnd)
    rw [List.foldl_cons, List.filter_cons]
    by_cases hc : dictContains t kv.1
    · rw [show importStep (n, t) kv = (n, t) by unfold importStep; simp [hc]]
      rw [ih n t hnd2]
      simp [hc]
    · rw [show importStep (n, t) kv = (n + 1, t ++ [kv]) by
        unfold importStep; simp [hc]]
      rw [ih (n + 1) (t ++ [kv]) hnd2]
      have hfilter : gs.filter (fun x => ! dictContains (t ++ [kv]) x.1)
          = gs.filter (fun x => ! dictContains t x.1) := by
        apply List.filter_congr
        intro x hx
        have hxne : x.1 ≠ kv.1 := fun he =>
          hmem (he ▸ List.mem_map_of_mem Prod.fst hx)
        unfold dictContains
        rw [List.any_append]
        have h1 : ([kv].any (fun e => e.1 == x.1)) = false := by
          simp only [List.any_cons, List.any_nil, Bool.or_false]
          exact beq_eq_false_iff_ne.mpr (fun h2 => hxne h2.symm)
        rw [h1, Bool.or_false]
      rw [hfilter]
      simp [hc]
      omega

lemma importFold_mem_contains (gt : List (String × Bool)) :
    ∀ (n : ℕ) (t : List (String × Bool)) (kv : String × Bool), kv ∈ gt →
      dictContains (gt.foldl importStep (n, t)).2 kv.1 = true := by
  induction gt with
  | nil => intro n t kv h; cases h
  | cons e gs ih =>
    intro n t kv h
    rw [List.foldl_cons]
    rcases List.mem_cons.mp h with he | hgs
    · subst he
      by_cases hc : dictContains t kv.1
      · rw [show importStep (n, t) kv = (n, t) by unfold importStep; simp [hc]]
        obtain ⟨u, hu⟩ := importFold_table_extends gs n t
        rw [hu]
        exact dictContains_append_left t u kv.1 hc
      · rw [show importStep (n, t) kv = (n + 1, t ++ [kv]) by
          unfold importStep; simp [hc]]
        obtain ⟨u, hu⟩ := importFold_table_extends gs (n + 1) (t ++ [kv])
        rw [hu]
        unfold dictContains
        have h1 : ([kv].any (fun e => e.1 == kv.1)) = true := by
          simp only [List.any_cons, List.any_nil, Bool.or_false]
          exact beq_self_eq_true _
        rw [List.any_append, List.any_append, h1]
        simp
    · exact ih _ _ kv hgs

lemma importFold_fixed (gt : List (String × Bool)) :
    ∀ (n : ℕ) (t : List (String × Bool)),
      (∀ kv ∈ gt, dictContains t kv.1 = true) →
      gt.foldl importStep (n, t) = (n, t) := by
  induction gt with
  | nil => intro n t _; rfl
  | cons kv gs ih =>
    intro n t h
    rw [List.foldl_cons,
      show importStep (n, t) kv = (n, t) by
        unfold importStep; simp [h kv (List.mem_cons_self kv gs)]]
    exact ih n t (fun x hx => h x (List.mem_cons_of_mem kv hx))

/-- C9: `import_ground_truth` never overwrites — looking up any fingerprint
already present yields the same label after the import; when the imported
map's fingerprints are distinct, the returned count is exactly the number of
imported fingerprints that were not already present; and importing the same
map a second time returns 0 and leaves the tracker unchanged. -/
theorem import_ground_truth_insert_only :
    (∀ (s : AccuracyTracker) (gt : List (String × Bool)) (k : String),
      dictContains s.ground_truth k = true →
      dictGet (importGroundTruth s gt).2.ground_truth k = dictGet s.ground_truth k) ∧
    (∀ (s : AccuracyTracker) (gt : List (String × Bool)),
      (gt.map Prod.fst).Nodup →
      (importGroundTruth s gt).1
        = (gt.filter (fun kv => ! dictContains s.ground_truth kv.1)).length) ∧
    (∀ (s : AccuracyTracker) (gt : List (String × Bool)),
      importGroundTruth (importGroundTruth s gt).2 gt
        = (0, (importGroundTruth s gt).2)) := by
  refine ⟨?_, ?_, ?_⟩
  · intro s gt k h
    unfold importGroundTruth
    obtain ⟨u, hu⟩ := importFold_table_extends gt 0 s.ground_truth
    simp only [hu]
    exact dictGet_append_of_contains _ _ _ h
  · intro s gt hnd
    unfold importGroundTruth
    simpa using importFold_count gt 0 s.ground_truth hnd
  · intro s gt
    unfold importGroundTruth
    have hall : ∀ kv ∈ gt,
        dictContains (gt.foldl importStep (0, s.ground_truth)).2 kv.1 = true :=
      fun kv hkv => importFold_mem_contains gt 0 s.ground_truth kv hkv
    simp only
    rw [importFold_fixed gt 0 _ hall]

/-- C9 witness: a tracker whose table holds fingerprint `"a"`, importing
`[("a", false), ("b", true)]` — the existing label survives, exactly one new
fingerprint is counted, and a second import of the same map is a no-op. -/
theorem import_ground_truth_insert_only_witness :
    dictGet (importGroundTruth { ground_truth := [("a", true)] }
        [("a", false), ("b", true)]).2.ground_truth "a"
      = dictGet ({ ground_truth := [("a", true)] } : AccuracyTracker).ground_truth "a" ∧
    (importGroundTruth { ground_truth := [("a", true)] }
        [("a", false), ("b", true)]).1
      = ([(("a", false) : String × Bool), ("b", true)].filter
          (fun kv => ! dictContains [("a", true)] kv.1)).length ∧
    importGroundTruth (importGroundTruth { ground_truth := [("a", true)] }
        [("a", false), ("b", true)]).2 [("a", false), ("b", true)]
      = (0, (importGroundTruth { ground_truth := [("a", true)] }
          [("a", false), ("b", true)]).2) :=
  ⟨import_ground_truth_insert_only.1 { ground_truth := [("a", true)] }
      [("a", false), ("b", true)] "a" (by decide),
   import_ground_truth_insert_only.2.1 { ground_truth := [("a", true)] }
      [("a", false), ("b", true)] (by decide),
   import_ground_truth_insert_only.2.2 { ground_truth := [("a", true)] }
      [("a", false), ("b", true)]⟩

/-! ## C2: cache TTL boundary -/

lemma cacheGet_hit (c : ToxicityCache) (now : ℚ) (text engine_type : String)
    (e : CacheResult)
    (hf : c.entries.find? (fun x => x.text_hash == generateKey text engine_type)
      = some e)
    (hfresh : ¬ now - e.timestamp > c.ttl_seconds) :
    cacheGet c now text engine_type
      = (some e.toxicity_score,
         { c with
           entries := c.entries.map (fun x =>
             if x.text_hash == generateKey text engine_type then
               { x with hit_count := x.hit_count + 1, last_access := now }
             else x)
           hits := c.hits + 1 }) := by
  simp only [cacheGet, hf]
  simp [isExpired, hfresh]

lemma cacheGet_expired (c : ToxicityCache) (now : ℚ) (text engine_type : String)
    (e : CacheResult)
    (hf : c.entries.find? (fun x => x.text_hash == generateKey text engine_type)
      = some e)
    (hexp : now - e.timestamp > c.ttl_seconds) :
    cacheGet c now text engine_type
      = (none,
         { c with
           entries := c.entries.eraseP
             (fun x => x.text_hash == generateKey text engine_type)
           expired := c.expired + 1
           misses := c.misses + 1 }) := by
  simp only [cacheGet, hf]
  simp [isExpired, hexp]

lemma find?_eraseP_key_none (k : String) :
    ∀ l : List CacheResult, (l.map CacheResult.text_hash).Nodup →
      (l.eraseP (fun x => x.text_hash == k)).find? (fun x => x.text_hash == k) = none
  | [], _ => rfl
  | x :: xs, hnd => by
    obtain ⟨hmem, hnd2⟩ := List.nodup_cons.mp
      (by rw [List.map_cons] at hnd; exact hnd)
    by_cases hx : (x.text_hash == k) = true
    · have hxk : x.text_hash = k := eq_of_beq hx
      rw [List.eraseP_cons_of_pos (p := fun (y : CacheResult) => y.text_hash == k) hx,
        List.find?_eq_none]
      intro y hy
      simp only [Bool.not_eq_true]
      refine beq_eq_false_iff_ne.mpr (fun he => hmem ?_)
      rw [hxk, ← he]
      exact List.mem_map_of_mem CacheResult.text_hash hy
    · rw [List.eraseP_cons_of_neg (p := fun (y : CacheResult) => y.text_hash == k) hx,
        List.find?_cons_of_neg (p := fun (y : CacheResult) => y.text_hash == k) _ hx]
      exact find?_eraseP_key_none k xs hnd2

/-- C2 (amended): for a cache entry `e` stored under the looked-up key,
`get` at time `now` returns the stored score (with one `hits` increment and
`misses`/`expired` untouched) whenever `now - insertedAt ≤ ttl` — in
particular strictly before `insertedAt + ttl`, but also at the boundary
itself — and returns absent exactly when `now - insertedAt > ttl`
(strictly), removing the entry and incrementing `expired` and `misses` by
exactly 1 on that read. -/
theorem cache_get_ttl_expiry :
    ∀ (c : ToxicityCache) (now : ℚ) (text engine_type : String) (e : CacheResult),
      c.entries.find? (fun x => x.text_hash == generateKey text engine_type)
        = some e →
      (now - e.timestamp ≤ c.ttl_seconds →
        (cacheGet c now text engine_type).1 = some e.toxicity_score ∧
        (cacheGet c now text engine_type).2.hits = c.hits + 1 ∧
        (cacheGet c now text engine_type).2.misses = c.misses ∧
        (cacheGet c now text engine_type).2.expired = c.expired) ∧
      (now - e.timestamp > c.ttl_seconds →
        (cacheGet c now text engine_type).1 = none ∧
        (cacheGet c now text engine_type).2.entries
          = c.entries.eraseP (fun x => x.text_hash == generateKey text engine_type) ∧
        (cacheGet c now text engine_type).2.expired = c.expired + 1 ∧
        (cacheGet c now text engine_type).2.misses = c.misses + 1 ∧
        ((c.entries.map CacheResult.text_hash).Nodup →
          (cacheGet c now text engine_type).2.entries.find?
            (fun x => x.text_hash == generateKey text engine_type) = none)) := by
  intro c now text engine_type e hf
  constructor
  · intro hle
    rw [cacheGet_hit c now text engine_type e hf (not_lt.mpr hle)]
    exact ⟨rfl, rfl, rfl, rfl⟩
  · intro hgt
    rw [cacheGet_expired c now text engine_type e hf hgt]
    exact ⟨rfl, rfl, rfl, rfl, fun hnd => find?_eraseP_key_none _ c.entries hnd⟩

/-- C2 counterexample: the claim as stated says `get` returns absent at any
time `≥ insertedAt + ttl`; but after `put` at time 0 into a cache with
`ttl = 1`, a `get` at time `1 = 0 + 1` still returns the stored score,
because `_is_expired` uses the strict test `now - timestamp > ttl`. -/
theorem cache_get_ttl_expiry_counterexample :
    (1 : ℚ) ≥ 0 + 1 ∧
    (cacheGet (cachePut { max_size := 2, ttl_seconds := 1 } 0 "x" "onnx" 5)
        1 "x" "onnx").1 = some 5 := by
  have hk : generateKey "x" "onnx" = "onnx:x" := rfl
  constructor
  · norm_num
  · norm_num [cacheGet, cachePut, hk, isExpired, evictLRU, lruEntry, List.find?]

/-- C2 witness: a concrete cache with `ttl = 1` holding one entry inserted
at time 0, read at the boundary time 1 (still a hit) and at time 2
(expired: removed, one `expired` and one `misses` increment). -/
theorem cache_get_ttl_expiry_witness :
    ((1 : ℚ) - (⟨"onnx:x", 5, 0, "onnx", 0, 0⟩ : CacheResult).timestamp
        ≤ ({ max_size := 2, ttl_seconds := 1, entries := [⟨"onnx:x", 5, 0, "onnx", 0, 0⟩] } : ToxicityCache).ttl_seconds) ∧
    (cacheGet { max_size := 2, ttl_seconds := 1, entries := [⟨"onnx:x", 5, 0, "onnx", 0, 0⟩] } 1 "x" "onnx").1 = some 5 ∧
    ((2 : ℚ) - (⟨"onnx:x", 5, 0, "onnx", 0, 0⟩ : CacheResult).timestamp
        > ({ max_size := 2, ttl_seconds := 1, entries := [⟨"onnx:x", 5, 0, "onnx", 0, 0⟩] } : ToxicityCache).ttl_seconds) ∧
    (cacheGet { max_size := 2, ttl_seconds := 1, entries := [⟨"onnx:x", 5, 0, "onnx", 0, 0⟩] } 2 "x" "onnx").1 = none ∧
    (cacheGet { max_size := 2, ttl_seconds := 1, entries := [⟨"onnx:x", 5, 0, "onnx", 0, 0⟩] } 2 "x" "onnx").2.expired = 0 + 1 ∧
    (cacheGet { max_size := 2, ttl_seconds := 1, entries := [⟨"onnx:x", 5, 0, "onnx", 0, 0⟩] } 2 "x" "onnx").2.misses = 0 + 1 :=
  ⟨by norm_num,
   ((cache_get_ttl_expiry { max_size := 2, ttl_seconds := 1, entries := [⟨"onnx:x", 5, 0, "onnx", 0, 0⟩] } 1 "x" "onnx"
        ⟨"onnx:x", 5, 0, "onnx", 0, 0⟩ rfl).1 (by norm_num)).1,
   by norm_num,
   ((cache_get_ttl_expiry { max_size := 2, ttl_seconds := 1, entries := [⟨"onnx:x", 5, 0, "onnx", 0, 0⟩] } 2 "x" "onnx"
        ⟨"onnx:x", 5, 0, "onnx", 0, 0⟩ rfl).2 (by norm_num)).1,
   ((cache_get_ttl_expiry { max_size := 2, ttl_seconds := 1, entries := [⟨"onnx:x", 5, 0, "onnx", 0, 0⟩] } 2 "x" "onnx"
        ⟨"onnx:x", 5, 0, "onnx", 0, 0⟩ rfl).2 (by norm_num)).2.2.1,
   ((cache_get_ttl_expiry { max_size := 2, ttl_seconds := 1, entries := [⟨"onnx:x", 5, 0, "onnx", 0, 0⟩] } 2 "x" "onnx"
        ⟨"onnx:x", 5, 0, "onnx", 0, 0⟩ rfl).2 (by norm_num)).2.2.2.1⟩

/-! ## C3: LRU eviction machinery -/

lemma foldl_lru_head :
    ∀ (es : List CacheResult) (e : CacheResult),
      (∀ x ∈ es, ¬ x.last_access < e.last_access) →
      es.foldl (fun b x => if x.last_access < b.last_access then x else b) e = e
  | [], _, _ => rfl
  | x :: xs, e, h => by
    rw [List.foldl_cons, if_neg (h x (List.mem_cons_self x xs))]
    exact foldl_lru_head xs e (fun y hy => h y (List.mem_cons_of_mem x hy))

lemma evictLRU_head (c : ToxicityCache) (e : CacheResult) (es : List CacheResult)
    (hent : c.entries = e :: es)
    (hmin : ∀ x ∈ es, ¬ x.last_access < e.last_access) :
    evictLRU c = { c with entries := es, evictions := c.evictions + 1 } := by
  have h1 : lruEntry c.entries = some e := by
    rw [hent]
    show some (es.foldl (fun b x => if x.last_access < b.last_access then x else b) e)
      = some e
    rw [foldl_lru_head es e hmin]
  show (match lruEntry c.entries with
    | none => c
    | some x =>
      { c with entries := c.entries.eraseP (fun y => y.text_hash == x.text_hash)
               evictions := c.evictions + 1 }) = _
  rw [h1]
  show { c with entries := c.entries.eraseP (fun y => y.text_hash == e.text_hash)
                evictions := c.evictions + 1 } = _
  rw [hent, List.eraseP_cons_of_pos
    (p := fun (x : CacheResult) => x.text_hash == e.text_hash) (beq_self_eq_true _)]

lemma any_eraseP_false {l : List CacheResult} {p q : CacheResult → Bool}
    (h : l.any p = false) : (l.eraseP q).any p = false := by
  rw [List.any_eq_false] at h ⊢
  intro x hx
  exact h x ((List.eraseP_sublist l).subset hx)

lemma cachePut_fresh_space (c : ToxicityCache) (p : PutEvent)
    (hlt : c.entries.length < c.max_size)
    (hfresh : (c.entries.any (fun e => e.text_hash == p.key)) = false) :
    cachePut c p.now p.text p.engine_type p.toxicity_score
      = { c with entries := c.entries ++ [p.entry] } := by
  have hkey : generateKey p.text p.engine_type = p.key := rfl
  simp only [cachePut, hkey]
  rw [if_neg (fun hcon => absurd hcon.1 (by omega))]
  rw [if_neg (by rw [hfresh]; exact Bool.false_ne_true)]
  rfl

lemma cachePut_evict_insert (c : ToxicityCache) (p : PutEvent)
    (hfull : c.entries.length ≥ c.max_size)
    (hfresh : (c.entries.any (fun e => e.text_hash == p.key)) = false) :
    cachePut c p.now p.text p.engine_type p.toxicity_score
      = { evictLRU c with entries := (evictLRU c).entries ++ [p.entry] } := by
  have h2 : ((evictLRU c).entries.any (fun e => e.text_hash == p.key)) = false := by
    unfold evictLRU
    cases hl : lruEntry c.entries with
    | none => exact hfresh
    | some e => exact any_eraseP_false hfresh
  have hkey : generateKey p.text p.engine_type = p.key := rfl
  simp only [cachePut, hkey]
  rw [if_pos ⟨hfull, by rw [hfresh]; exact Bool.false_ne_true⟩]
  rw [if_neg (by rw [h2]; exact Bool.false_ne_true)]
  rfl

lemma runPuts_fresh :
    ∀ (ps : List PutEvent) (c : ToxicityCache),
      (∀ p ∈ ps, (c.entries.any (fun e => e.text_hash == p.key)) = false) →
      (ps.map PutEvent.key).Nodup →
      c.entries.length + ps.length ≤ c.max_size →
      runPuts c ps = { c with entries := c.entries ++ ps.map PutEvent.entry }
  | [], c, _, _, _ => by
    show c = _
    rw [List.map_nil, List.append_nil]
  | p :: rest, c, hfresh, hnd, hlen => by
    obtain ⟨hmem, hnd2⟩ := List.nodup_cons.mp
      (by rw [List.map_cons] at hnd; exact hnd)
    rw [List.length_cons] at hlen
    have happ := cachePut_fresh_space c p (by omega)
      (hfresh p (List.mem_cons_self p rest))
    have hfresh2 : ∀ q ∈ rest,
        ((c.entries ++ [p.entry]).any (fun e => e.text_hash == q.key)) = false := by
      intro q hq
      rw [List.any_append]
      rw [hfresh q (List.mem_cons_of_mem p hq)]
      have : (([p.entry] : List CacheResult).any
          (fun e => e.text_hash == q.key)) = false := by
        simp only [List.any_cons, List.any_nil, Bool.or_false]
        refine beq_eq_false_iff_ne.mpr (fun he => hmem ?_)
        rw [show PutEvent.key p = PutEvent.key q from he]
        exact List.mem_map_of_mem PutEvent.key hq
      rw [this]
      rfl
    have hrec := runPuts_fresh rest { c with entries := c.entries ++ [p.entry] }
      hfresh2 hnd2 (by simp only [List.length_append, List.length_cons,
        List.length_nil]; omega)
    show runPuts (cachePut c p.now p.text p.engine_type p.toxicity_score) rest = _
    rw [happ, hrec]
    simp [List.append_assoc]

/-- C3 (amended, `N ≥ 1`): inserting `N + 1` put events with pairwise
distinct keys at strictly increasing times into an empty cache of capacity
`N ≥ 1` yields exactly one eviction, and the evicted entry is the first one
inserted — the entry with the smallest `last_access` at the time of the
`(N+1)`th insert — so the final entries are exactly those of the last `N`
puts, in order; concretely, with `max_size = 2` and `ttl = 3600`, after
`put("a","onnx",0.1)`, `put("b","onnx",0.2)`, `put("c","onnx",0.3)` the
cache answers `get("a") = none` while `get("b") = some 0.2` and
`get("c") = some 0.3`, with exactly one eviction recorded. -/
theorem cache_lru_eviction :
    (∀ (N : ℕ) (T : ℚ) (qs : List PutEvent) (p : PutEvent),
      1 ≤ N →
      qs.length = N →
      ((qs ++ [p]).map PutEvent.key).Nodup →
      ((qs ++ [p]).map PutEvent.now).Pairwise (· < ·) →
      runPuts { max_size := N, ttl_seconds := T } (qs ++ [p])
        = { max_size := N, ttl_seconds := T,
            entries := (qs.drop 1).map PutEvent.entry ++ [p.entry],
            evictions := 1 }) ∧
    ((cacheGet (runPuts { max_size := 2, ttl_seconds := 3600 }
        [⟨0, "a", "onnx", 0.1⟩, ⟨1, "b", "onnx", 0.2⟩, ⟨2, "c", "onnx", 0.3⟩])
        3 "a" "onnx").1 = none ∧
      (cacheGet (cacheGet (runPuts { max_size := 2, ttl_seconds := 3600 }
        [⟨0, "a", "onnx", 0.1⟩, ⟨1, "b", "onnx", 0.2⟩, ⟨2, "c", "onnx", 0.3⟩])
        3 "a" "onnx").2 4 "b" "onnx").1 = some 0.2 ∧
      (cacheGet (cacheGet (cacheGet (runPuts { max_size := 2, ttl_seconds := 3600 }
        [⟨0, "a", "onnx", 0.1⟩, ⟨1, "b", "onnx", 0.2⟩, ⟨2, "c", "onnx", 0.3⟩])
        3 "a" "onnx").2 4 "b" "onnx").2 5 "c" "onnx").1 = some 0.3 ∧
      (runPuts { max_size := 2, ttl_seconds := 3600 }
        [⟨0, "a", "onnx", 0.1⟩, ⟨1, "b", "onnx", 0.2⟩, ⟨2, "c", "onnx", 0.3⟩]).evictions
        = 1) := by
  constructor
  · intro N T qs p hN hlen hnd hinc
    cases qs with
    | nil => rw [List.length_nil] at hlen; omega
    | cons q0 qt =>
      have hnd1 : ((q0 :: qt).map PutEvent.key).Nodup := by
        rw [List.map_append] at hnd
        exact hnd.of_append_left
      have hdisjoint : ∀ q ∈ q0 :: qt, q.key ≠ p.key := by
        rw [List.map_append] at hnd
        obtain ⟨-, -, hdisj⟩ := List.nodup_append.mp hnd
        intro q hq he
        refine hdisj (List.mem_map_of_mem PutEvent.key hq) ?_
        rw [he]
        exact List.mem_map_of_mem PutEvent.key (List.mem_singleton.mpr rfl)
      have hlen2 : qt.length + 1 = N := by
        rw [List.length_cons] at hlen
        exact hlen
      have hstage1 := runPuts_fresh (q0 :: qt)
        { max_size := N, ttl_seconds := T }
        (fun q _ => rfl) hnd1
        (by show 0 + (qt.length + 1) ≤ N; omega)
      simp only [runPuts, List.nil_append] at hstage1 ⊢
      rw [List.foldl_append, hstage1, List.foldl_cons, List.foldl_nil]
      have hfreshp : (((q0 :: qt).map PutEvent.entry).any
          (fun e => e.text_hash == p.key)) = false := by
        rw [List.any_eq_false]
        intro x hx
        obtain ⟨q, hq, hqe⟩ := List.mem_map.mp hx
        rw [← hqe]
        simp only [Bool.not_eq_true]
        exact beq_eq_false_iff_ne.mpr (hdisjoint q hq)
      have hmin : ∀ x ∈ qt.map PutEvent.entry,
          ¬ x.last_access < (PutEvent.entry q0).last_access := by
        intro x hx
        obtain ⟨q, hq, hqe⟩ := List.mem_map.mp hx
        rw [← hqe]
        have hq0 : ∀ y ∈ ((qt ++ [p]).map PutEvent.now), q0.now < y := by
          have hpc := hinc
          rw [show (q0 :: qt) ++ [p] = q0 :: (qt ++ [p]) from rfl,
            List.map_cons] at hpc
          exact (List.pairwise_cons.mp hpc).1
        have := hq0 q.now (List.mem_map_of_mem PutEvent.now
          (List.mem_append_left [p] hq))
        exact not_lt.mpr (le_of_lt this)
      rw [cachePut_evict_insert _ p
        (by show ((q0 :: qt).map PutEvent.entry).length ≥ N
            rw [List.length_map, List.length_cons]
            omega)
        hfreshp]
      rw [evictLRU_head _ (PutEvent.entry q0) (qt.map PutEvent.entry)
        (by rw [List.map_cons]) hmin]
      rfl
  · have hka : generateKey "a" "onnx" = "onnx:a" := rfl
    have hkb : generateKey "b" "onnx" = "onnx:b" := rfl
    have hkc : generateKey "c" "onnx" = "onnx:c" := rfl
    have hab : ("onnx:a" : String) ≠ "onnx:b" := by decide
    have hba : ("onnx:b" : String) ≠ "onnx:a" := by decide
    have hac : ("onnx:a" : String) ≠ "onnx:c" := by decide
    have hca : ("onnx:c" : String) ≠ "onnx:a" := by decide
    have hbc : ("onnx:b" : String) ≠ "onnx:c" := by decide
    have hcb : ("onnx:c" : String) ≠ "onnx:b" := by decide
    have hab2 : (("onnx:a" : String) == "onnx:b") = false := by decide
    have hba2 : (("onnx:b" : String) == "onnx:a") = false := by decide
    have hac2 : (("onnx:a" : String) == "onnx:c") = false := by decide
    have hca2 : (("onnx:c" : String) == "onnx:a") = false := by decide
    have hbc2 : (("onnx:b" : String) == "onnx:c") = false := by decide
    have hcb2 : (("onnx:c" : String) == "onnx:b") = false := by decide
    refine ⟨?_, ?_, ?_, ?_⟩ <;>
      norm_num [runPuts, cachePut, cacheGet, evictLRU, lruEntry, isExpired,
        hka, hkb, hkc, hab, hba, hac, hca, hbc, hcb,
        hab2, hba2, hac2, hca2, hbc2, hcb2,
        PutEvent.key, PutEvent.entry, List.find?]

/-- C3 counterexample: for capacity `N = 0` the claim fails — inserting
`0 + 1 = 1` distinct key into an empty capacity-0 cache calls `_evict_lru`
on an empty dict, which returns without evicting, so 0 evictions are
recorded (not exactly one) and the cache ends up holding 1 > 0 entries. -/
theorem cache_lru_eviction_counterexample :
    (cachePut { max_size := 0, ttl_seconds := 3600 } 0 "a" "onnx" 5).evictions = 0 ∧
    (cachePut { max_size := 0, ttl_seconds := 3600 } 0 "a" "onnx" 5).entries.length
      = 1 := by
  constructor <;> rfl

/-- C3 witness: the general eviction law applied to two puts filling a
capacity-2 cache and a third distinct put, evaluated at concrete events. -/
theorem cache_lru_eviction_witness :
    runPuts { max_size := 2, ttl_seconds := 3600 }
        ([⟨0, "a", "onnx", 1⟩, ⟨1, "b", "onnx", 2⟩] ++ [⟨2, "c", "onnx", 3⟩])
      = { max_size := 2, ttl_seconds := 3600,
          entries := ([(⟨0, "a", "onnx", 1⟩ : PutEvent),
              ⟨1, "b", "onnx", 2⟩].drop 1).map PutEvent.entry
            ++ [PutEvent.entry ⟨2, "c", "onnx", 3⟩],
          evictions := 1 } :=
  cache_lru_eviction.1 2 3600 [⟨0, "a", "onnx", 1⟩, ⟨1, "b", "onnx", 2⟩]
    ⟨2, "c", "onnx", 3⟩ (by decide) rfl (by decide) (by decide)

/-! ## C10: `invalidate` with a text and no engine type -/

/-- C10 (amended): `invalidate(text)` with no engine type builds its lookup
key with the empty-string engine (`engine_type or ''`). Provided every
cached entry was stored under an engine type that is non-empty and does not
begin with `':'`, such a call removes nothing and returns 0, even when an
entry for that exact text exists under some engine — but an engine type
beginning with `':'` can collide with the empty-engine key (see the
counterexample), which is the one case the original claim missed. -/
theorem invalidate_no_engine_removes_nothing :
    ∀ (c : ToxicityCache) (text : String),
      (∀ e ∈ c.entries, ∃ t2 e2 : String,
        e2.data ≠ [] ∧ e2.data.head? ≠ some ':' ∧ e.text_hash = generateKey t2 e2) →
      invalidateText c text none = (0, c) := by
  intro c text h
  unfold invalidateText
  have hany : (c.entries.any
      (fun e => e.text_hash == generateKey text ((none : Option String).getD "")))
      = false := by
    rw [List.any_eq_false]
    intro e he
    obtain ⟨t2, e2, hne, hhead, hkey⟩ := h e he
    simp only [Bool.not_eq_true]
    refine beq_eq_false_iff_ne.mpr ?_
    rw [hkey]
    intro hcontra
    have hd := congrArg String.data hcontra
    simp only [generateKey, Option.getD, String.data_append] at hd
    cases he2 : e2.data with
    | nil => exact hne he2
    | cons ch rest =>
      rw [he2] at hd
      simp only [List.cons_append, List.nil_append, List.cons.injEq] at hd
      apply hhead
      rw [he2, List.head?_cons, hd.1]
  rw [if_neg (by rw [hany]; exact Bool.false_ne_true)]

/-- C10 counterexample: the claim as stated quantifies over every non-empty
engine type, but an engine type beginning with `':'` collides: after
`put("b", ":a", 5)` the stored key is the hash of `":a:b"`, and
`invalidate("a:b")` with no engine hashes `":" + "a:b" = ":a:b"` — the same
string, hence the same SHA-256 — so the call removes that entry and
returns 1, not 0. -/
theorem invalidate_no_engine_counterexample :
    ((":a" : String) ≠ "") ∧
    (invalidateText (cachePut { max_size := 2, ttl_seconds := 3600 } 0 "b" ":a" 5)
      "a:b" none).1 = 1 := by
  constructor
  · decide
  · rfl

/-- C10 witness: a cache populated by `put("a", "onnx", 5)` — the engine
type `"onnx"` is non-empty and does not start with `':'` — on which
`invalidate("a")` with no engine removes nothing and returns 0. -/
theorem invalidate_no_engine_removes_nothing_witness :
    invalidateText (cachePut { max_size := 2, ttl_seconds := 3600 } 0 "a" "onnx" 5)
      "a" none
      = (0, cachePut { max_size := 2, ttl_seconds := 3600 } 0 "a" "onnx" 5) :=
  invalidate_no_engine_removes_nothing
    (cachePut { max_size := 2, ttl_seconds := 3600 } 0 "a" "onnx" 5) "a"
    (by
      intro e he
      have hent : (cachePut { max_size := 2, ttl_seconds := 3600 }
          0 "a" "onnx" 5).entries = [⟨"onnx:a", 5, 0, "onnx", 0, 0⟩] := rfl
      rw [hent, List.mem_singleton] at he
      subst he
      exact ⟨"a", "onnx", by decide, by decide, rfl⟩)

end ReflectPause
